import Mathlib

/-!
Shallow embedding of the VideoChangeDetector repository
(`video_processor.py`, `region_selector.py`).

Frames are matrices of BGR pixels (row-major lists, matching the
`numpy` array layout `frame[y][x]`).  Machine floats in the source are
modelled as rationals, Python `int` as `ℤ`/`ℕ`, and the OpenCV calls
used by the code (`cvtColor(BGR2GRAY)`, `absdiff`, `threshold`,
array slicing) are embedded by their documented elementwise semantics.
-/

namespace VCD

/-- A BGR pixel: `(blue, green, red)`, each channel `0..255`. -/
abbrev Pixel := ℕ × ℕ × ℕ

/-- A colour frame: list of rows of pixels (`frame[y][x]`). -/
abbrev Frame := List (List Pixel)

/-- A single-channel (grayscale) frame. -/
abbrev Gray := List (List ℕ)

/-- OpenCV `cvtColor(COLOR_BGR2GRAY)` on an 8-bit pixel: fixed-point
`Y = (R*4899 + G*9617 + B*1868 + 2^13) >> 14` (OpenCV's `R2Y`, `G2Y`,
`B2Y` coefficients with `yuv_shift = 14`). -/
def toGray (p : Pixel) : ℕ :=
  (1868 * p.1 + 9617 * p.2.1 + 4899 * p.2.2 + 8192) / 16384

/-- `cv2.cvtColor(frame, cv2.COLOR_BGR2GRAY)` applied elementwise. -/
def cvtColorGray (f : Frame) : Gray :=
  f.map (fun row => row.map toGray)

/-- `cv2.absdiff` on two grayscale mats (elementwise `|a - b|`). -/
def absdiffMat (a b : Gray) : Gray :=
  List.zipWith (List.zipWith (fun u v => max u v - min u v)) a b

/-- `cv2.threshold(mat, cut, maxval, cv2.THRESH_BINARY)`: each entry
becomes `maxval` when strictly above `cut`, else `0`. -/
def thresholdBinary (cut maxval : ℕ) (g : Gray) : Gray :=
  g.map (fun row => row.map (fun d => if cut < d then maxval else 0))

/-- `np.sum` over a grayscale mat. -/
def matSum (g : Gray) : ℕ :=
  (g.map (fun row => row.sum)).sum

/-- A region of interest `(x, y, w, h)` in source-frame pixel space,
as stored by `VideoProcessor.set_region`. -/
structure Region where
  x : ℕ
  y : ℕ
  w : ℕ
  h : ℕ
deriving DecidableEq, Repr

/-- The configuration fields of `VideoProcessor.__init__`:
`sensitivity`, `min_scene_len`, `region`, `change_threshold`. -/
structure Config where
  sensitivity : ℚ
  min_scene_len : ℕ
  region : Option Region
  change_threshold : ℕ

/-- `VideoProcessor.crop_region`: `frame[y:y+h, x:x+w]` with Python
slice clipping; a `None` region returns the frame unchanged. -/
def crop_region (region : Option Region) (frame : List (List α)) : List (List α) :=
  match region with
  | none => frame
  | some r => ((frame.drop r.y).take r.h).map (fun row => (row.drop r.x).take r.w)

/-- `VideoProcessor.detect_change`, as a pure state transformer over the
stored `last_frame`.  Returns the boolean decision together with the new
`last_frame` (always replaced by the current frame once seeded). -/
def detect_change (cfg : Config) (last_frame : Option Frame) (current_frame : Frame) :
    Bool × Option Frame :=
  match last_frame with
  | none => (false, some current_frame)
  | some lf =>
      let current_cropped := crop_region cfg.region current_frame
      let last_cropped := crop_region cfg.region lf
      let current_gray := cvtColorGray current_cropped
      let last_gray := cvtColorGray last_cropped
      let frame_diff := absdiffMat current_gray last_gray
      let thresh := thresholdBinary 30 255 frame_diff
      let change_count := matSum thresh / 255
      (decide (cfg.change_threshold < change_count), some current_frame)

/-- A change event as appended by `process_video` (`frame_number`,
`time_seconds`; the wall-clock timestamp string and screenshot path are
outside the model). -/
structure ChangeEvent where
  frame_number : ℕ
  time_seconds : ℚ
deriving DecidableEq, Repr

/-- The loop state of one `process_video` call, plus an effect trace:
the progress values passed to the callback and the number of
screenshots written. -/
structure LoopState where
  frame_count : ℕ
  last_screenshot_time : ℚ
  last_frame : Option Frame
  change_events : List ChangeEvent
  progress : List ℚ
  screenshots : ℕ

/-- One iteration of the `while True` loop of `process_video` on a
successfully read frame: increment the counter, compute
`current_time = frame_count / fps`, run `detect_change`, emit a
screenshot and event when the change is flagged and at least one second
of video timeline has passed since the last screenshot, then report
progress `(frame_count / total_frames) * 100`. -/
def processStep (cfg : Config) (fps : ℚ) (total_frames : ℕ)
    (st : LoopState) (frame : Frame) : LoopState :=
  let fc := st.frame_count + 1
  let current_time : ℚ := (fc : ℚ) / fps
  let det := detect_change cfg st.last_frame frame
  let emit := det.1 && decide (1 ≤ current_time - st.last_screenshot_time)
  { frame_count := fc
    last_screenshot_time := if emit then current_time else st.last_screenshot_time
    last_frame := det.2
    change_events :=
      if emit then st.change_events ++ [⟨fc, current_time⟩] else st.change_events
    progress := st.progress ++ [((fc : ℚ) / (total_frames : ℚ)) * 100]
    screenshots := if emit then st.screenshots + 1 else st.screenshots }

/-- Errors raised by `process_video` before the loop starts. -/
inductive VideoError where
  | fileNotFound
  | openFailed
deriving DecidableEq, Repr

/-- The state reset at the start of every scan (`change_events = []`,
`frame_count = 0`, `last_screenshot_time = 0`, `self.last_frame = None`). -/
def initState : LoopState :=
  { frame_count := 0, last_screenshot_time := 0, last_frame := none
    change_events := [], progress := [], screenshots := 0 }

/-- `VideoProcessor.process_video`.  The filesystem and decoder are
abstracted by `path_exists` (`os.path.exists`), `opens`
(`cap.isOpened()`), the stream metadata `fps` / `total_frames`, and the
list of frames the decoder yields before `cap.read()` fails.
`pre_last_frame` is the processor's `last_frame` attribute before the
call; line `self.last_frame = None` discards it.  Returns the event
list (or the raised error) together with the progress-callback trace
and the number of screenshots written. -/
def process_video (cfg : Config) (pre_last_frame : Option Frame)
    (path_exists opens : Bool) (fps : ℚ) (total_frames : ℕ)
    (frames : List Frame) :
    Except VideoError (List ChangeEvent) × List ℚ × ℕ :=
  if !path_exists then (Except.error VideoError.fileNotFound, [], 0)
  else if !opens then (Except.error VideoError.openFailed, [], 0)
  else
    let final := frames.foldl (processStep cfg fps total_frames) initState
    (Except.ok final.change_events, final.progress, final.screenshots)

/-- Number of entries of a grayscale mat strictly above `cut` (what the
code's `np.sum(thresh) // 255` computes). -/
def countAbove (cut : ℕ) (g : Gray) : ℕ :=
  (g.map (fun row => (row.filter (fun d => decide (cut < d))).length)).sum

/-- Number of entries of a grayscale mat at or above `cut` (the count
the specification's words describe). -/
def countAtLeast (cut : ℕ) (g : Gray) : ℕ :=
  (g.map (fun row => (row.filter (fun d => decide (cut ≤ d))).length)).sum

/-- The per-pixel luminance difference mat that `detect_change` computes
for a region and a previous/current frame pair. -/
def diffMat (region : Option Region) (lf cur : Frame) : Gray :=
  absdiffMat (cvtColorGray (crop_region region cur))
    (cvtColorGray (crop_region region lf))

/-- The throttling predicate as the specification words it:
emit iff at least one second has passed, or no event was ever emitted. -/
def shouldEmitSpec (current_time last_emitted : ℚ) (ever_emitted : Bool) : Bool :=
  !ever_emitted || decide (1 ≤ current_time - last_emitted)

/-! ### Region selector (`region_selector.py`) -/

/-- A rectangle `(x, y, w, h)` in display coordinates, as held in
`RegionSelector.region` (Python ints, possibly negative). -/
structure DispRect where
  x : ℤ
  y : ℤ
  w : ℤ
  h : ℤ
deriving DecidableEq, Repr

/-- Pointer events delivered to the `_draw_rectangle` mouse callback. -/
inductive MouseEvent where
  | down (x y : ℤ)
  | move (x y : ℤ)
  | up (x y : ℤ)

/-- The mutable state the mouse callback works on: `drawing`, the
anchor `(ix, iy)`, and the committed candidate `region`. -/
structure DrawState where
  drawing : Bool
  ix : ℤ
  iy : ℤ
  region : Option DispRect

/-- `RegionSelector._draw_rectangle`: press records the anchor, move
only repaints the preview, release commits the normalized rectangle
(`x1 = min`, `w = max - min`, so width/height are never negative). -/
def draw_rectangle (st : DrawState) (e : MouseEvent) : DrawState :=
  match e with
  | MouseEvent.down x y => { st with drawing := true, ix := x, iy := y }
  | MouseEvent.move _ _ => st
  | MouseEvent.up x y =>
      { st with
        drawing := false
        region := some ⟨min st.ix x, min st.iy y,
                        max st.ix x - min st.ix x, max st.iy y - min st.iy y⟩ }

/-- The display scale factor computed by `select_region`:
`min(screen_w / frame_w, screen_h / frame_h) * 0.9`. -/
def scale_factor (frame_w frame_h screen_w screen_h : ℕ) : ℚ :=
  min ((screen_w : ℚ) / (frame_w : ℚ)) ((screen_h : ℚ) / (frame_h : ℚ)) * (9 / 10)

/-- Python `int()` on a rational: truncation toward zero. -/
def pyInt (q : ℚ) : ℤ :=
  if 0 ≤ q then ⌊q⌋ else ⌈q⌉

/-- `RegionSelector.select_region`.  The interaction loop is abstracted
by the list of pointer events received before the terminal key and by
`cancelled` (`q` pressed rather than Enter).  On confirm, the committed
display rectangle is mapped back to source coordinates by
`int(v / scale_factor)` on each component — but only when
`scale_factor < 1.0` (the case in which the preview was resized);
otherwise the committed rectangle is returned unchanged.  No clamping
or degeneracy check is performed. -/
def select_region (frame_w frame_h screen_w screen_h : ℕ)
    (events : List MouseEvent) (cancelled : Bool) : Option DispRect :=
  let s := scale_factor frame_w frame_h screen_w screen_h
  let final := events.foldl draw_rectangle ⟨false, -1, -1, none⟩
  if cancelled then none
  else
    match final.region with
    | none => none
    | some r =>
        if s < 1 then
          some ⟨pyInt ((r.x : ℚ) / s), pyInt ((r.y : ℚ) / s),
                pyInt ((r.w : ℚ) / s), pyInt ((r.h : ℚ) / s)⟩
        else some r

/-- Concrete 1×1 all-black frame used by witnesses. -/
def blackFrame : Frame := [[(0, 0, 0)]]

/-- Concrete 1×1 all-white frame used by witnesses. -/
def whiteFrame : Frame := [[(255, 255, 255)]]

/-- Concrete 1×1 frame of luminance exactly 30. -/
def gray30Frame : Frame := [[(30, 30, 30)]]

/-- A concrete configuration with no region and `change_threshold = 0`. -/
def cfgZero : Config := ⟨30, 15, none, 0⟩

/-- A concrete 2×3 frame used by witnesses. -/
def frame2x3 : Frame :=
  [[(0, 0, 0), (1, 1, 1), (2, 2, 2)], [(3, 3, 3), (4, 4, 4), (5, 5, 5)]]

/-- Inter-event ordering established by the throttle: strictly
increasing frame numbers, times at least one second apart. -/
def evRel (a b : ChangeEvent) : Prop :=
  a.frame_number < b.frame_number ∧ a.time_seconds + 1 ≤ b.time_seconds

/-- Loop invariant of `process_video`: the accumulated events are
ordered by `evRel`, their frame numbers never exceed the frame counter,
and their times never exceed the throttle watermark. -/
def EventsInv (st : LoopState) : Prop :=
  List.Chain' evRel st.change_events ∧
    ∀ e ∈ st.change_events,
      e.frame_number ≤ st.frame_count ∧ e.time_seconds ≤ st.last_screenshot_time

end VCD

namespace VCD

lemma row_threshold_sum (cut : ℕ) (row : List ℕ) :
    (row.map (fun d => if cut < d then 255 else 0)).sum
      = 255 * (row.filter (fun d => decide (cut < d))).length := by
  induction row with
  | nil => simp
  | cons a l ih =>
      by_cases h : cut < a <;> simp [h, ih, List.filter_cons] <;> omega

lemma matSum_threshold (cut : ℕ) (g : Gray) :
    matSum (thresholdBinary cut 255 g) = 255 * countAbove cut g := by
  induction g with
  | nil => simp [matSum, thresholdBinary, countAbove]
  | cons r t ih =>
      simp only [matSum, thresholdBinary, countAbove, List.map_cons,
        List.sum_cons] at ih ⊢
      rw [row_threshold_sum, ih, Nat.mul_add]

lemma change_count_eq (cut : ℕ) (g : Gray) :
    matSum (thresholdBinary cut 255 g) / 255 = countAbove cut g := by
  rw [matSum_threshold]
  exact Nat.mul_div_cancel_left _ (by norm_num)

lemma detect_change_some (cfg : Config) (lf cur : Frame) :
    detect_change cfg (some lf) cur
      = (decide (cfg.change_threshold
            < countAbove 30 (diffMat cfg.region lf cur)), some cur) := by
  simp only [detect_change, diffMat]
  rw [change_count_eq]

lemma crop_length (r : Region) (f : List (List α)) :
    (crop_region (some r) f).length = min r.h (f.length - r.y) := by
  simp [crop_region]

lemma crop_row_length {W : ℕ} (r : Region) (f : List (List α))
    (hW : ∀ row ∈ f, row.length = W) :
    ∀ row ∈ crop_region (some r) f, row.length = min r.w (W - r.x) := by
  intro row hrow
  simp only [crop_region, List.mem_map] at hrow
  obtain ⟨row0, h0, rfl⟩ := hrow
  have hmem : row0 ∈ f := List.mem_of_mem_drop (List.mem_of_mem_take h0)
  simp [hW row0 hmem]

lemma cvt_length (f : Frame) : (cvtColorGray f).length = f.length := by
  simp [cvtColorGray]

lemma cvt_row_length {w : ℕ} (f : Frame) (hW : ∀ row ∈ f, row.length = w) :
    ∀ row ∈ cvtColorGray f, row.length = w := by
  intro row hrow
  simp only [cvtColorGray, List.mem_map] at hrow
  obtain ⟨row0, h0, rfl⟩ := hrow
  simp [hW row0 h0]

lemma absdiff_length (a b : Gray) :
    (absdiffMat a b).length = min a.length b.length := by
  simp [absdiffMat]

lemma absdiff_row_length {w : ℕ} (a : Gray) :
    ∀ b : Gray, (∀ r ∈ a, r.length = w) → (∀ r ∈ b, r.length = w) →
      ∀ r ∈ absdiffMat a b, r.length = w := by
  induction a with
  | nil => intro b _ _ r hr; simp [absdiffMat] at hr
  | cons x xs ih =>
      intro b ha hb r hr
      cases b with
      | nil => simp [absdiffMat] at hr
      | cons y ys =>
          simp only [absdiffMat, List.zipWith_cons_cons, List.mem_cons] at hr
          rcases hr with hr | hr
          · subst hr
            have hx : x.length = w := ha x (by simp)
            have hy : y.length = w := hb y (by simp)
            simp [hx, hy]
          · exact ih ys (fun s hs => ha s (by simp [hs]))
              (fun s hs => hb s (by simp [hs])) r hr

lemma countAbove_all {cut : ℕ} {g : Gray}
    (h : ∀ row ∈ g, ∀ v ∈ row, cut < v) :
    countAbove cut g = (g.map List.length).sum := by
  unfold countAbove
  congr 1
  apply List.map_congr_left
  intro row hrow
  congr 1
  rw [List.filter_eq_self]
  intro v hv
  simpa using h row hrow v hv

lemma sum_lengths {w : ℕ} (g : Gray) (hw : ∀ r ∈ g, r.length = w) :
    (g.map List.length).sum = g.length * w := by
  induction g with
  | nil => simp
  | cons r t ih =>
      simp only [List.map_cons, List.sum_cons, List.length_cons]
      rw [hw r (by simp), ih (fun s hs => hw s (by simp [hs]))]
      ring

lemma diffMat_dims {H W x y w h : ℕ} (lf cur : Frame)
    (hlH : lf.length = H) (hcH : cur.length = H)
    (hlW : ∀ row ∈ lf, row.length = W) (hcW : ∀ row ∈ cur, row.length = W)
    (hxw : x + w ≤ W) (hyh : y + h ≤ H) :
    (diffMat (some ⟨x, y, w, h⟩) lf cur).length = h ∧
      ∀ row ∈ diffMat (some ⟨x, y, w, h⟩) lf cur, row.length = w := by
  have hcl : (crop_region (some ⟨x, y, w, h⟩) cur).length = h := by
    rw [crop_length, hcH]; dsimp only; omega
  have hll : (crop_region (some ⟨x, y, w, h⟩) lf).length = h := by
    rw [crop_length, hlH]; dsimp only; omega
  have hcw : ∀ row ∈ crop_region (some ⟨x, y, w, h⟩) cur, row.length = w := by
    intro row hrow
    rw [crop_row_length _ cur hcW row hrow]; dsimp only; omega
  have hlw : ∀ row ∈ crop_region (some ⟨x, y, w, h⟩) lf, row.length = w := by
    intro row hrow
    rw [crop_row_length _ lf hlW row hrow]; dsimp only; omega
  constructor
  · rw [diffMat, absdiff_length, cvt_length, cvt_length, hcl, hll]; omega
  · exact absdiff_row_length _ _
      (cvt_row_length _ hcw) (cvt_row_length _ hlw)

lemma eventsInv_init : EventsInv initState := by
  constructor <;> simp [initState]

lemma eventsInv_step (cfg : Config) (fps : ℚ) (total : ℕ) (st : LoopState)
    (f : Frame) (h : EventsInv st) :
    EventsInv (processStep cfg fps total st f) := by
  obtain ⟨hchain, hbound⟩ := h
  by_cases hemit : ((detect_change cfg st.last_frame f).1
      && decide (1 ≤ ((st.frame_count + 1 : ℕ) : ℚ) / fps
                    - st.last_screenshot_time)) = true
  · have ht : st.last_screenshot_time + 1
        ≤ ((st.frame_count + 1 : ℕ) : ℚ) / fps := by
      have := (Bool.and_eq_true _ _ |>.mp hemit).2
      have := of_decide_eq_true this
      linarith
    constructor
    · simp only [processStep, hemit, if_true]
      rw [List.chain'_append]
      refine ⟨hchain, List.chain'_singleton _, ?_⟩
      intro e he e' he'
      simp only [List.head?_cons, Option.mem_def, Option.some.injEq] at he'
      subst he'
      have hmem : e ∈ st.change_events := List.mem_of_mem_getLast? he
      obtain ⟨hfn, htm⟩ := hbound e hmem
      exact ⟨show e.frame_number < st.frame_count + 1 by omega,
        show e.time_seconds + 1 ≤ ((st.frame_count + 1 : ℕ) : ℚ) / fps by linarith⟩
    · intro e he
      simp only [processStep, hemit, if_true, List.mem_append,
        List.mem_singleton] at he ⊢
      rcases he with he | he
      · obtain ⟨hfn, htm⟩ := hbound e he
        exact ⟨show e.frame_number ≤ st.frame_count + 1 by omega,
          show e.time_seconds ≤ ((st.frame_count + 1 : ℕ) : ℚ) / fps by linarith⟩
      · subst he
        exact ⟨le_refl _, le_refl _⟩
  · constructor
    · simp only [processStep, hemit, if_false, Bool.false_eq_true]
      simpa using hchain
    · intro e he
      simp only [processStep, hemit, if_false, Bool.false_eq_true] at he ⊢
      obtain ⟨hfn, htm⟩ := hbound e (by simpa using he)
      exact ⟨by omega, htm⟩

lemma eventsInv_foldl (cfg : Config) (fps : ℚ) (total : ℕ)
    (frames : List Frame) (st : LoopState) (h : EventsInv st) :
    EventsInv (frames.foldl (processStep cfg fps total) st) := by
  induction frames generalizing st with
  | nil => exact h
  | cons f fs ih => exact ih _ (eventsInv_step cfg fps total st f h)

lemma foldl_progress (cfg : Config) (fps : ℚ) (total : ℕ)
    (frames : List Frame) : ∀ st : LoopState,
    (frames.foldl (processStep cfg fps total) st).progress
      = st.progress ++ (List.range frames.length).map
          (fun k => ((st.frame_count + 1 + k : ℕ) : ℚ) / (total : ℚ) * 100) := by
  induction frames with
  | nil => intro st; simp
  | cons f fs ih =>
      intro st
      rw [List.foldl_cons, ih]
      simp only [processStep, List.length_cons, List.append_assoc]
      congr 1
      simp only [List.singleton_append]
      rw [List.range_succ_eq_map, List.map_cons, List.map_map]
      refine List.cons_eq_cons.mpr ⟨by norm_num, ?_⟩
      apply List.map_congr_left
      intro a _
      simp only [Function.comp_apply]
      push_cast
      ring

lemma progress_mono (total : ℕ) (a b : ℕ) (hab : a ≤ b) :
    ((a : ℕ) : ℚ) / (total : ℚ) * 100 ≤ ((b : ℕ) : ℚ) / (total : ℚ) * 100 := by
  rcases Nat.eq_zero_or_pos total with h0 | hpos
  · simp [h0]
  · have htot : (0 : ℚ) < (total : ℚ) := by exact_mod_cast hpos
    have hab' : ((a : ℕ) : ℚ) ≤ ((b : ℕ) : ℚ) := by exact_mod_cast hab
    have := (div_le_div_iff_of_pos_right htot).mpr hab'
    nlinarith

lemma chain'_progress_list (total : ℕ) (c n : ℕ) :
    List.Chain' (· ≤ ·) ((List.range n).map
      (fun k => ((c + 1 + k : ℕ) : ℚ) / (total : ℚ) * 100)) := by
  rw [List.chain'_map]
  cases n with
  | zero => simp
  | succ m =>
      rw [List.chain'_range_succ]
      intro i _
      exact progress_mono total _ _ (by omega)

end VCD

/-- Claim C1 (amended): for every previous/current frame pair and fixed
region, `detect_change` crops both frames to the region (the whole frame
when no region is set), converts the crops to luminance, takes the
per-pixel absolute difference, counts the pixels whose difference is
strictly above the cutoff of 30, and reports a change iff that count
exceeds `change_threshold`; in particular, for two frames differing in
every pixel of a `w×h` in-bounds region by more than the cutoff, it
returns true iff `w * h > change_threshold`. -/
theorem C1_detect_change_pixel_count (cfg : VCD.Config) (lf cur : VCD.Frame) :
    ((VCD.detect_change cfg (some lf) cur).1
        = decide (cfg.change_threshold
            < VCD.countAbove 30 (VCD.diffMat cfg.region lf cur)))
    ∧ ∀ x y w h H W : ℕ, cfg.region = some ⟨x, y, w, h⟩ →
        lf.length = H → cur.length = H →
        (∀ row ∈ lf, row.length = W) → (∀ row ∈ cur, row.length = W) →
        x + w ≤ W → y + h ≤ H →
        (∀ row ∈ VCD.diffMat cfg.region lf cur, ∀ v ∈ row, 30 < v) →
        (VCD.detect_change cfg (some lf) cur).1
          = decide (cfg.change_threshold < w * h) := by
  constructor
  · rw [VCD.detect_change_some]
  · intro x y w h H W hr hlH hcH hlW hcW hxw hyh hall
    rw [VCD.detect_change_some]
    have hd := VCD.diffMat_dims lf cur hlH hcH hlW hcW hxw hyh
    rw [hr] at hall ⊢
    rw [VCD.countAbove_all hall, VCD.sum_lengths _ hd.2, hd.1,
      Nat.mul_comm]

/-- Claim C1, counterexample to the claim as stated: with no region,
`change_threshold = 0`, a black previous frame and a current frame of
luminance exactly 30, the per-pixel difference is exactly the cutoff 30;
the count of pixels at or above the cutoff is 1 > 0, so the claim
predicts "changed", but `detect_change` reports false (the code counts
only pixels strictly above 30). -/
theorem C1_cutoff_is_strict_cex :
    VCD.countAtLeast 30 (VCD.diffMat none VCD.blackFrame VCD.gray30Frame) = 1
    ∧ VCD.cfgZero.change_threshold < 1
    ∧ (VCD.detect_change VCD.cfgZero (some VCD.blackFrame) VCD.gray30Frame).1
        = false := by
  refine ⟨by decide, by decide, by decide⟩

/-- Claim C1, witness: the amended theorem applied to a concrete
in-bounds 1×1 region on 1×1 frames differing by more than the cutoff. -/
theorem C1_detect_change_pixel_count_witness :
    (VCD.detect_change ⟨30, 15, some ⟨0, 0, 1, 1⟩, 0⟩
        (some VCD.blackFrame) VCD.whiteFrame).1
      = decide ((0 : ℕ) < 1 * 1) :=
  (C1_detect_change_pixel_count ⟨30, 15, some ⟨0, 0, 1, 1⟩, 0⟩
      VCD.blackFrame VCD.whiteFrame).2 0 0 1 1 1 1 rfl rfl rfl
    (by decide) (by decide) (by decide) (by decide) (by decide)

/-- Claim C3: on the first `detect_change` call of any scan (no stored
previous frame) the result is false regardless of the frame's content,
and the current frame is recorded as the previous frame; `process_video`
starts every scan from the reset state (previous frame cleared), so its
result does not depend on the processor's `last_frame` left over from
an earlier scan. -/
theorem C3_first_frame_seeds (cfg : VCD.Config) (f : VCD.Frame)
    (fps : ℚ) (total : ℕ) :
    VCD.detect_change cfg none f = (false, some f)
    ∧ (VCD.processStep cfg fps total VCD.initState f).change_events = []
    ∧ (VCD.processStep cfg fps total VCD.initState f).last_frame = some f
    ∧ ∀ p1 p2 pe op frames,
        VCD.process_video cfg p1 pe op fps total frames
          = VCD.process_video cfg p2 pe op fps total frames := by
  refine ⟨rfl, ?_, rfl, fun _ _ _ _ _ => rfl⟩
  simp [VCD.processStep, VCD.detect_change, VCD.initState]

/-- Claim C7: calling `process_video` on a path that does not exist
returns the file-not-found error regardless of whether the stream would
open and regardless of the frames behind it; the failed call produces
no events, reports no progress, and writes no screenshot. -/
theorem C7_missing_path_fails_fast (cfg : VCD.Config)
    (pre : Option VCD.Frame) (opens : Bool) (fps : ℚ) (total : ℕ)
    (frames : List VCD.Frame) :
    VCD.process_video cfg pre false opens fps total frames
      = (Except.error VCD.VideoError.fileNotFound, [], 0) := rfl

/-- Claim C9: the change decision is independent of `sensitivity` and
`min_scene_len`: two configurations agreeing on `region` and
`change_threshold` produce identical `detect_change` decisions on every
frame pair and identical `process_video` results on every stream. -/
theorem C9_sensitivity_min_scene_len_unused (c1 c2 : VCD.Config)
    (hr : c1.region = c2.region)
    (ht : c1.change_threshold = c2.change_threshold) :
    (∀ lf cur, VCD.detect_change c1 lf cur = VCD.detect_change c2 lf cur)
    ∧ ∀ pre pe op fps total frames,
        VCD.process_video c1 pre pe op fps total frames
          = VCD.process_video c2 pre pe op fps total frames := by
  have hd : ∀ lf cur, VCD.detect_change c1 lf cur = VCD.detect_change c2 lf cur := by
    intro lf cur
    cases lf with
    | none => rfl
    | some l => simp [VCD.detect_change, hr, ht]
  refine ⟨hd, ?_⟩
  intro pre pe op fps total frames
  have hstep : VCD.processStep c1 fps total = VCD.processStep c2 fps total := by
    funext st f
    simp [VCD.processStep, hd]
  simp [VCD.process_video, hstep]

/-- Claim C9, witness: two configurations differing only in
`sensitivity` (30 vs 99) and `min_scene_len` (15 vs 3) agree on a
concrete decision and on a concrete two-frame scan. -/
theorem C9_witness :
    VCD.detect_change ⟨30, 15, none, 0⟩ (some VCD.blackFrame) VCD.whiteFrame
      = VCD.detect_change ⟨99, 3, none, 0⟩ (some VCD.blackFrame) VCD.whiteFrame
    ∧ VCD.process_video ⟨30, 15, none, 0⟩ none true true 10 2
        [VCD.blackFrame, VCD.whiteFrame]
      = VCD.process_video ⟨99, 3, none, 0⟩ none true true 10 2
        [VCD.blackFrame, VCD.whiteFrame] :=
  ⟨(C9_sensitivity_min_scene_len_unused ⟨30, 15, none, 0⟩ ⟨99, 3, none, 0⟩
      rfl rfl).1 _ _,
   (C9_sensitivity_min_scene_len_unused ⟨30, 15, none, 0⟩ ⟨99, 3, none, 0⟩
      rfl rfl).2 _ _ _ _ _ _⟩

/-- Claim C10: for a frame of height `H` and width `W` and a region
`(x, y, w, h)` with `x ≤ W` and `y ≤ H`, `crop_region` never fails even
when the region extends past the right or bottom edge: it returns the
clipped sub-frame of height `min h (H - y)` and width `min w (W - x)`. -/
theorem C10_crop_region_clips (frame : VCD.Frame) (H W x y w h : ℕ)
    (hH : frame.length = H) (hW : ∀ row ∈ frame, row.length = W)
    (hx : x ≤ W) (hy : y ≤ H) :
    (VCD.crop_region (some ⟨x, y, w, h⟩) frame).length = min h (H - y)
    ∧ ∀ row ∈ VCD.crop_region (some ⟨x, y, w, h⟩) frame,
        row.length = min w (W - x) := by
  constructor
  · rw [VCD.crop_length, hH]
  · intro row hrow
    exact VCD.crop_row_length _ frame hW row hrow

/-- Claim C10, witness: cropping a 2×3 frame with the out-of-bounds
region `(1, 1, 5, 4)` yields the clipped `min 4 (2-1) = 1` rows. -/
theorem C10_crop_region_clips_witness :
    (VCD.crop_region (some ⟨1, 1, 5, 4⟩) VCD.frame2x3).length = min 4 (2 - 1) :=
  (C10_crop_region_clips VCD.frame2x3 2 3 1 1 5 4 rfl (by decide)
    (by decide) (by decide)).1

/-- Claim C2 (amended): during a scan, a detected change is emitted as
an event iff `current_time - last_screenshot_time >= 1.0`, where
`last_screenshot_time` starts at 0 — there is no separate exemption for
"no event has ever been emitted", so the first event of a scan requires
`current_time >= 1.0`; on emission, the event for the current frame is
appended and the watermark advances to the current time, so across any
run of flagged frames at most one event is emitted per 1-second window
of video timeline (the first qualifying frame wins) and consecutive
emitted events are at least one second apart. -/
theorem C2_throttle_rule (cfg : VCD.Config) (fps : ℚ) (total : ℕ)
    (st : VCD.LoopState) (f : VCD.Frame) :
    (((VCD.processStep cfg fps total st f).change_events ≠ st.change_events)
      ↔ ((VCD.detect_change cfg st.last_frame f).1 = true
          ∧ 1 ≤ ((st.frame_count + 1 : ℕ) : ℚ) / fps - st.last_screenshot_time))
    ∧ ((VCD.detect_change cfg st.last_frame f).1 = true →
        1 ≤ ((st.frame_count + 1 : ℕ) : ℚ) / fps - st.last_screenshot_time →
        (VCD.processStep cfg fps total st f).change_events
          = st.change_events
            ++ [⟨st.frame_count + 1, ((st.frame_count + 1 : ℕ) : ℚ) / fps⟩]
          ∧ (VCD.processStep cfg fps total st f).last_screenshot_time
            = ((st.frame_count + 1 : ℕ) : ℚ) / fps)
    ∧ (∀ pre frames evs pr sc,
        VCD.process_video cfg pre true true fps total frames
          = (Except.ok evs, pr, sc) →
        List.Chain' (fun a b => a.time_seconds + 1 ≤ b.time_seconds) evs) := by
  have hchain : ∀ (pre : Option VCD.Frame) frames evs pr sc,
      VCD.process_video cfg pre true true fps total frames
        = (Except.ok evs, pr, sc) →
      List.Chain' (fun a b => a.time_seconds + 1 ≤ b.time_seconds) evs := by
    intro pre frames evs pr sc h
    have h1 : (frames.foldl (VCD.processStep cfg fps total)
        VCD.initState).change_events = evs := by
      simpa [VCD.process_video] using congrArg (fun z => z.1) h
    have hinv := VCD.eventsInv_foldl cfg fps total frames VCD.initState
      VCD.eventsInv_init
    have hc := hinv.1
    rw [h1] at hc
    exact List.Chain'.imp (fun a b hab => hab.2) hc
  by_cases hemit : ((VCD.detect_change cfg st.last_frame f).1
      && decide (1 ≤ ((st.frame_count + 1 : ℕ) : ℚ) / fps
                    - st.last_screenshot_time)) = true
  · obtain ⟨hdet, hle⟩ := (Bool.and_eq_true _ _).mp hemit
    have hle' := of_decide_eq_true hle
    have hev : (VCD.processStep cfg fps total st f).change_events
        = st.change_events
          ++ [⟨st.frame_count + 1, ((st.frame_count + 1 : ℕ) : ℚ) / fps⟩] := by
      simp only [VCD.processStep, hemit, if_true]
    have hlst : (VCD.processStep cfg fps total st f).last_screenshot_time
        = ((st.frame_count + 1 : ℕ) : ℚ) / fps := by
      simp only [VCD.processStep, hemit, if_true]
    refine ⟨⟨fun _ => ⟨hdet, hle'⟩, fun _ => ?_⟩, fun _ _ => ⟨hev, hlst⟩, hchain⟩
    rw [hev]
    intro hcontra
    have := congrArg List.length hcontra
    simp at this
  · have hev : (VCD.processStep cfg fps total st f).change_events
        = st.change_events := by
      simp only [VCD.processStep, hemit, if_false, Bool.false_eq_true]
    refine ⟨⟨fun hne => absurd hev hne, fun hc => ?_⟩,
      fun hdet hle => ?_, hchain⟩
    · exact absurd ((Bool.and_eq_true _ _).mpr ⟨hc.1, decide_eq_true hc.2⟩) hemit
    · exact absurd ((Bool.and_eq_true _ _).mpr ⟨hdet, decide_eq_true hle⟩) hemit

/-- Claim C2, counterexample to the claim as stated: with `fps = 10`
and `change_threshold = 0`, frame 2 (a white frame after a black one)
is a detected change at `time = 0.2` with no event ever emitted, so the
claimed rule (`shouldEmitSpec`) says "emit"; but the scan emits nothing
— the code has no "no event yet" exemption. -/
theorem C2_throttle_rule_cex :
    (VCD.detect_change VCD.cfgZero (some VCD.blackFrame) VCD.whiteFrame).1 = true
    ∧ VCD.shouldEmitSpec ((2 : ℚ) / 10) 0 false = true
    ∧ VCD.process_video VCD.cfgZero none true true 10 2
        [VCD.blackFrame, VCD.whiteFrame]
      = (Except.ok [], [50, 100], 0) := by
  refine ⟨by decide, by norm_num [VCD.shouldEmitSpec], ?_⟩
  simp [VCD.process_video, VCD.processStep, VCD.initState, VCD.detect_change,
    VCD.cfgZero, VCD.blackFrame, VCD.whiteFrame, VCD.crop_region,
    VCD.cvtColorGray, VCD.absdiffMat, VCD.thresholdBinary, VCD.matSum,
    VCD.toGray]
  norm_num

/-- Claim C2, witness: the amended rule applied to a concrete state —
a flagged frame at time 2 with watermark 0 emits exactly one event, and
a concrete three-frame scan yields events at least one second apart. -/
theorem C2_throttle_rule_witness :
    (VCD.processStep VCD.cfgZero 1 1 ⟨1, 0, some VCD.blackFrame, [], [], 0⟩
        VCD.whiteFrame).change_events
      = [] ++ [⟨1 + 1, ((1 + 1 : ℕ) : ℚ) / 1⟩]
    ∧ List.Chain' (fun a b => a.time_seconds + 1 ≤ b.time_seconds)
        [(⟨2, 2⟩ : VCD.ChangeEvent), ⟨3, 3⟩] := by
  constructor
  · exact ((C2_throttle_rule VCD.cfgZero 1 1 ⟨1, 0, some VCD.blackFrame, [], [], 0⟩
      VCD.whiteFrame).2.1 (by decide) (by norm_num)).1
  · refine (C2_throttle_rule VCD.cfgZero 1 1 ⟨1, 0, some VCD.blackFrame, [], [], 0⟩
      VCD.whiteFrame).2.2 none [VCD.blackFrame, VCD.whiteFrame, VCD.blackFrame]
      [⟨2, 2⟩, ⟨3, 3⟩] [100, 200, 300] 2 ?_
    simp [VCD.process_video, VCD.processStep, VCD.initState, VCD.detect_change,
      VCD.cfgZero, VCD.blackFrame, VCD.whiteFrame, VCD.crop_region,
      VCD.cvtColorGray, VCD.absdiffMat, VCD.thresholdBinary, VCD.matSum,
      VCD.toGray]
    norm_num

/-- Claim C4: the event list returned by `process_video` is an ordered,
append-only sequence in frame order: adjacent events have strictly
increasing frame numbers and times at least one second apart, and every
loop iteration only appends to the event list (never reorders or
removes). -/
theorem C4_events_ordered_append_only (cfg : VCD.Config)
    (pre : Option VCD.Frame) (fps : ℚ) (total : ℕ)
    (frames : List VCD.Frame) (evs : List VCD.ChangeEvent)
    (pr : List ℚ) (sc : ℕ)
    (h : VCD.process_video cfg pre true true fps total frames
        = (Except.ok evs, pr, sc)) :
    List.Chain' VCD.evRel evs
    ∧ ∀ st f, ∃ tail, (VCD.processStep cfg fps total st f).change_events
        = st.change_events ++ tail := by
  constructor
  · have h1 : (frames.foldl (VCD.processStep cfg fps total)
        VCD.initState).change_events = evs := by
      simpa [VCD.process_video] using congrArg (fun z => z.1) h
    have hinv := VCD.eventsInv_foldl cfg fps total frames VCD.initState
      VCD.eventsInv_init
    have hc := hinv.1
    rw [h1] at hc
    exact hc
  · intro st f
    by_cases hemit : ((VCD.detect_change cfg st.last_frame f).1
        && decide (1 ≤ ((st.frame_count + 1 : ℕ) : ℚ) / fps
                      - st.last_screenshot_time)) = true
    · exact ⟨[⟨st.frame_count + 1, ((st.frame_count + 1 : ℕ) : ℚ) / fps⟩],
        by simp only [VCD.processStep, hemit, if_true]⟩
    · refine ⟨[], ?_⟩
      simp only [VCD.processStep, hemit, if_false, Bool.false_eq_true,
        List.append_nil]

/-- Claim C4, witness: a concrete scan yielding two events `(2, 2s)` and
`(3, 3s)`, ordered and one second apart. -/
theorem C4_events_ordered_append_only_witness :
    List.Chain' VCD.evRel [(⟨2, 2⟩ : VCD.ChangeEvent), ⟨3, 3⟩] :=
  (C4_events_ordered_append_only VCD.cfgZero none 1 1
    [VCD.blackFrame, VCD.whiteFrame, VCD.blackFrame]
    [⟨2, 2⟩, ⟨3, 3⟩] [100, 200, 300] 2 (by
      simp [VCD.process_video, VCD.processStep, VCD.initState, VCD.detect_change,
        VCD.cfgZero, VCD.blackFrame, VCD.whiteFrame, VCD.crop_region,
        VCD.cvtColorGray, VCD.absdiffMat, VCD.thresholdBinary, VCD.matSum,
        VCD.toGray]
      norm_num)).1

/-- Claim C8 (amended): across a single scan the values passed to the
progress callback form a monotonically non-decreasing sequence, and when
the stream's metadata frame count equals the number of frames actually
read (and at least one frame is read) the final reported value is
exactly 100; the values are not clamped, so when the metadata frame
count undercounts the actual frames the reported values exceed 100. -/
theorem C8_progress_monotone (cfg : VCD.Config) (pre : Option VCD.Frame)
    (fps : ℚ) (total : ℕ) (frames : List VCD.Frame)
    (evs : List VCD.ChangeEvent) (pr : List ℚ) (sc : ℕ)
    (h : VCD.process_video cfg pre true true fps total frames
        = (Except.ok evs, pr, sc)) :
    List.Chain' (· ≤ ·) pr
    ∧ (total = frames.length → frames ≠ [] → pr.getLast? = some 100) := by
  have h2 : (frames.foldl (VCD.processStep cfg fps total)
      VCD.initState).progress = pr := by
    simpa [VCD.process_video] using congrArg (fun z => z.2.1) h
  rw [VCD.foldl_progress] at h2
  simp only [VCD.initState, List.nil_append] at h2
  constructor
  · rw [← h2]
    exact VCD.chain'_progress_list total 0 frames.length
  · intro htot hne
    rw [← h2]
    cases frames with
    | nil => exact absurd rfl hne
    | cons g gs =>
        subst htot
        simp only [List.length_cons]
        rw [List.range_succ, List.map_append, List.map_cons, List.map_nil,
          List.getLast?_concat]
        congr 1
        rw [div_mul_eq_mul_div,
          div_eq_iff (by exact_mod_cast Nat.succ_ne_zero gs.length)]
        push_cast
        ring

/-- Claim C8, counterexample to the claim as stated: when the metadata
frame count (1) undercounts the frames actually read (2), the second
reported progress value is 200, which is not clamped to `[0, 100]`. -/
theorem C8_progress_monotone_cex :
    VCD.process_video VCD.cfgZero none true true 1 1
        [VCD.blackFrame, VCD.blackFrame]
      = (Except.ok [], [100, 200], 0)
    ∧ ¬ ((200 : ℚ) ≤ 100) := by
  constructor
  · simp [VCD.process_video, VCD.processStep, VCD.initState, VCD.detect_change,
      VCD.cfgZero, VCD.blackFrame, VCD.crop_region, VCD.cvtColorGray,
      VCD.absdiffMat, VCD.thresholdBinary, VCD.matSum, VCD.toGray]
    norm_num
  · norm_num

/-- Claim C8, witness: a two-frame scan with accurate metadata reports
`[50, 100]` — non-decreasing and ending at exactly 100. -/
theorem C8_progress_monotone_witness :
    List.Chain' (· ≤ ·) [(50 : ℚ), 100]
    ∧ [(50 : ℚ), 100].getLast? = some 100 := by
  have happ := C8_progress_monotone VCD.cfgZero none 1 2
    [VCD.blackFrame, VCD.blackFrame] [] [50, 100] 0 (by
      simp [VCD.process_video, VCD.processStep, VCD.initState, VCD.detect_change,
        VCD.cfgZero, VCD.blackFrame, VCD.crop_region, VCD.cvtColorGray,
        VCD.absdiffMat, VCD.thresholdBinary, VCD.matSum, VCD.toGray]
      norm_num)
  exact ⟨happ.1, happ.2 rfl (by simp)⟩

/-- Helper: every candidate rectangle committed by the mouse callback
has non-negative width and height. -/
theorem draw_region_nonneg (events : List VCD.MouseEvent) :
    ∀ st : VCD.DrawState,
    (∀ r0 : VCD.DispRect, st.region = some r0 → 0 ≤ r0.w ∧ 0 ≤ r0.h) →
    ∀ r0 : VCD.DispRect,
      (events.foldl VCD.draw_rectangle st).region = some r0 →
      0 ≤ r0.w ∧ 0 ≤ r0.h := by
  induction events with
  | nil => intro st h r0 hr; exact h r0 hr
  | cons e es ih =>
      intro st h r0 hr
      rw [List.foldl_cons] at hr
      refine ih _ ?_ r0 hr
      intro r1 hr1
      cases e with
      | down x y => exact h r1 hr1
      | move x y => exact h r1 hr1
      | up x y =>
          simp only [VCD.draw_rectangle, Option.some.injEq] at hr1
          rw [← hr1]
          exact ⟨sub_nonneg.mpr (min_le_max), sub_nonneg.mpr (min_le_max)⟩

/-- Helper: the display scale factor is never negative. -/
theorem scale_factor_nonneg (fw fh sw sh : ℕ) :
    0 ≤ VCD.scale_factor fw fh sw sh := by
  unfold VCD.scale_factor
  have h1 : (0 : ℚ) ≤ (sw : ℚ) / (fw : ℚ) :=
    div_nonneg (Nat.cast_nonneg _) (Nat.cast_nonneg _)
  have h2 : (0 : ℚ) ≤ (sh : ℚ) / (fh : ℚ) :=
    div_nonneg (Nat.cast_nonneg _) (Nat.cast_nonneg _)
  have := le_min h1 h2
  nlinarith

/-- Claim C5: a display rectangle committed under display scale factor
`s < 1` is confirmed to the source rectangle obtained by dividing each
of `x`, `y`, `w`, `h` by `s` and truncating toward zero (`pyInt`); when
no resize took place (effective scale factor 1.0, i.e. `1 ≤ s`), the
committed display rectangle is returned unchanged. -/
theorem C5_region_scale_inverse (fw fh sw sh : ℕ) (px py qx qy : ℤ) :
    (VCD.scale_factor fw fh sw sh < 1 →
      VCD.select_region fw fh sw sh
          [VCD.MouseEvent.down px py, VCD.MouseEvent.up qx qy] false
        = some ⟨VCD.pyInt (((min px qx : ℤ) : ℚ) / VCD.scale_factor fw fh sw sh),
                VCD.pyInt (((min py qy : ℤ) : ℚ) / VCD.scale_factor fw fh sw sh),
                VCD.pyInt (((max px qx - min px qx : ℤ) : ℚ)
                  / VCD.scale_factor fw fh sw sh),
                VCD.pyInt (((max py qy - min py qy : ℤ) : ℚ)
                  / VCD.scale_factor fw fh sw sh)⟩)
    ∧ (1 ≤ VCD.scale_factor fw fh sw sh →
      VCD.select_region fw fh sw sh
          [VCD.MouseEvent.down px py, VCD.MouseEvent.up qx qy] false
        = some ⟨min px qx, min py qy, max px qx - min px qx,
                max py qy - min py qy⟩) := by
  constructor
  · intro hs
    simp [VCD.select_region, VCD.draw_rectangle, hs]
  · intro hs
    simp [VCD.select_region, VCD.draw_rectangle, not_lt.mpr hs]

/-- Claim C5, witness: a drag from `(10, 10)` to `(110, 210)` at scale
`1/2` (900×900 frame on a 500×500 display) maps through the scale
inverse, and a drag from `(5, 5)` to `(30, 40)` on a small frame
(scale 18, no resize) is returned unchanged. -/
theorem C5_region_scale_inverse_witness :
    VCD.select_region 900 900 500 500
        [VCD.MouseEvent.down 10 10, VCD.MouseEvent.up 110 210] false
      = some ⟨VCD.pyInt (((min (10 : ℤ) 110 : ℤ) : ℚ)
                / VCD.scale_factor 900 900 500 500),
              VCD.pyInt (((min (10 : ℤ) 210 : ℤ) : ℚ)
                / VCD.scale_factor 900 900 500 500),
              VCD.pyInt (((max (10 : ℤ) 110 - min (10 : ℤ) 110 : ℤ) : ℚ)
                / VCD.scale_factor 900 900 500 500),
              VCD.pyInt (((max (10 : ℤ) 210 - min (10 : ℤ) 210 : ℤ) : ℚ)
                / VCD.scale_factor 900 900 500 500)⟩
    ∧ VCD.select_region 100 100 2000 2000
        [VCD.MouseEvent.down 5 5, VCD.MouseEvent.up 30 40] false
      = some ⟨min (5 : ℤ) 30, min (5 : ℤ) 40, max (5 : ℤ) 30 - min (5 : ℤ) 30,
              max (5 : ℤ) 40 - min (5 : ℤ) 40⟩ :=
  ⟨(C5_region_scale_inverse 900 900 500 500 10 10 110 210).1
      (by norm_num [VCD.scale_factor]),
   (C5_region_scale_inverse 100 100 2000 2000 5 5 30 40).2
      (by norm_num [VCD.scale_factor])⟩

/-- Claim C6 (amended): every non-none region returned by
`select_region` has non-negative width and height (the release handler
normalizes the corners), but the code performs no clamping or
validation at confirmation: a zero-motion click yields a degenerate
width-0, height-0 region and a drag past the frame edge yields an
out-of-bounds rectangle, both returned as-is. -/
theorem C6_selected_region_nonneg (fw fh sw sh : ℕ)
    (events : List VCD.MouseEvent) (cancelled : Bool) (r : VCD.DispRect)
    (h : VCD.select_region fw fh sw sh events cancelled = some r) :
    0 ≤ r.w ∧ 0 ≤ r.h := by
  cases cancelled with
  | true => simp [VCD.select_region] at h
  | false =>
      have h' : (match (events.foldl VCD.draw_rectangle
            ⟨false, -1, -1, none⟩).region with
          | none => none
          | some r0 =>
              if VCD.scale_factor fw fh sw sh < 1 then
                some (⟨VCD.pyInt ((r0.x : ℚ) / VCD.scale_factor fw fh sw sh),
                      VCD.pyInt ((r0.y : ℚ) / VCD.scale_factor fw fh sw sh),
                      VCD.pyInt ((r0.w : ℚ) / VCD.scale_factor fw fh sw sh),
                      VCD.pyInt ((r0.h : ℚ) / VCD.scale_factor fw fh sw sh)⟩ :
                        VCD.DispRect)
              else some r0) = some r := h
      rcases hreg : (events.foldl VCD.draw_rectangle
          ⟨false, -1, -1, none⟩).region with _ | r0
      · rw [hreg] at h'
        simp at h'
      · rw [hreg] at h'
        dsimp only at h'
        have hr0 := draw_region_nonneg events ⟨false, -1, -1, none⟩
          (by intro r1 hr1; simp at hr1) r0 hreg
        by_cases hs : VCD.scale_factor fw fh sw sh < 1
        · rw [if_pos hs] at h'
          simp only [Option.some.injEq] at h'
          rw [← h']
          have hsn := scale_factor_nonneg fw fh sw sh
          have hw : (0 : ℚ) ≤ (r0.w : ℚ) / VCD.scale_factor fw fh sw sh :=
            div_nonneg (by exact_mod_cast hr0.1) hsn
          have hh : (0 : ℚ) ≤ (r0.h : ℚ) / VCD.scale_factor fw fh sw sh :=
            div_nonneg (by exact_mod_cast hr0.2) hsn
          constructor
          · show 0 ≤ VCD.pyInt ((r0.w : ℚ) / VCD.scale_factor fw fh sw sh)
            rw [VCD.pyInt, if_pos hw]
            exact Int.floor_nonneg.mpr hw
          · show 0 ≤ VCD.pyInt ((r0.h : ℚ) / VCD.scale_factor fw fh sw sh)
            rw [VCD.pyInt, if_pos hh]
            exact Int.floor_nonneg.mpr hh
        · rw [if_neg hs] at h'
          simp only [Option.some.injEq] at h'
          rw [← h']
          exact hr0

/-- Claim C6, counterexample to the claim as stated: a zero-motion click
at `(5, 5)` (press and release at the same point) on a small frame is
confirmed to the degenerate region `(5, 5, 0, 0)` — returned non-none
with `width = 0`, violating the invariant `width > 0`. -/
theorem C6_selected_region_nonneg_cex :
    VCD.select_region 100 100 2000 2000
        [VCD.MouseEvent.down 5 5, VCD.MouseEvent.up 5 5] false
      = some ⟨5, 5, 0, 0⟩
    ∧ ¬ (0 < (⟨5, 5, 0, 0⟩ : VCD.DispRect).w) := by
  constructor
  · simp [VCD.select_region, VCD.draw_rectangle, VCD.scale_factor]
    norm_num
  · simp

/-- Claim C6, witness: the amended theorem applied to the zero-motion
click — the returned degenerate region still has non-negative width and
height. -/
theorem C6_selected_region_nonneg_witness :
    0 ≤ (⟨5, 5, 0, 0⟩ : VCD.DispRect).w ∧ 0 ≤ (⟨5, 5, 0, 0⟩ : VCD.DispRect).h :=
  C6_selected_region_nonneg 100 100 2000 2000
    [VCD.MouseEvent.down 5 5, VCD.MouseEvent.up 5 5] false ⟨5, 5, 0, 0⟩
    (by
      simp [VCD.select_region, VCD.draw_rectangle, VCD.scale_factor]
      norm_num)
